import Mathlib

/-!
Verification of the feature-interpretation pipeline of `shared/interp.py`
(`run_interp_pipeline` and the helpers it relies on).

Modelling conventions:
- Activation values and scores are rationals (`ℚ`).
- A raised Python exception is `Except.error`; randomness (`np.random.choice`)
  is made explicit by passing the drawn positions as an argument.
- Python's `list.sort(key=..., reverse=True)` is a stable descending sort; it is
  modelled with `List.insertionSort` (stable, structurally recursive, hence
  executable in proofs).  No verified property depends on the order of ties.
-/

namespace InterpPipeline

/-- Modelled from the spec: `FeatureSample` is `{text: string, act: float}`
(`shared/features.py` is not among the sources; the spec gives the record). -/
structure FeatureSample where
  text : String
  act : ℚ
deriving DecidableEq, Repr, Inhabited

/-- Modelled from the spec: the interpretation-service response
`{label: string, reasoning: string, attributes: list of string}`. -/
structure Interpretation where
  label : String
  reasoning : String
  attributes : List String
deriving DecidableEq, Repr

/-- Modelled from the spec: the `Feature` output record
(`shared/features.py` is not among the sources; the spec gives the fields). -/
structure Feature where
  index : Nat
  label : String
  attributes : List String
  reasoning : String
  confidence : ℚ
  density : ℚ
  high_act_samples : List FeatureSample
  low_act_samples : List FeatureSample
deriving DecidableEq, Repr

/-- Modelled from the spec: the external LLM client (`shared/ai.py` is not among
the sources).  `get_interpretation` takes the high- and low-evidence sample sets;
`score_interpretation` takes a sample set and the attribute list and yields the
`percent` field of the response.  `Except.error` models a raised exception. -/
structure OpenAIClient where
  get_interpretation : List FeatureSample → List FeatureSample → Except String Interpretation
  score_interpretation : List FeatureSample → List String → Except String ℚ

instance exceptDecidableEq {ε α : Type} [DecidableEq ε] [DecidableEq α] :
    DecidableEq (Except ε α)
  | .error e, .error f =>
    if h : e = f then .isTrue (congrArg Except.error h)
    else .isFalse fun hc => h (Except.error.inj hc)
  | .error _, .ok _ => .isFalse fun hc => Except.noConfusion hc
  | .ok _, .error _ => .isFalse fun hc => Except.noConfusion hc
  | .ok a, .ok b =>
    if h : a = b then .isTrue (congrArg Except.ok h)
    else .isFalse fun hc => h (Except.ok.inj hc)

/-- Python's `abs` on a rational, in an executable form (`|q|` on `ℚ` is stated
through order-lattice instances that the kernel cannot evaluate; the lemma
`ratAbs_eq_abs` identifies the two). -/
def ratAbs (q : ℚ) : ℚ := if q < 0 then -q else q

/-- `np.count_nonzero(row)`. -/
def countNonzero (row : List ℚ) : Nat :=
  (row.filter (fun x => decide (x ≠ 0))).length

/-- `np.count_nonzero(feature) / len(feature)` (interp.py line 130). -/
def density (row : List ℚ) : ℚ :=
  (countNonzero row : ℚ) / (row.length : ℚ)

/-- The comprehension `FeatureSample(text=text_data[i], act=value) for i, value in
enumerate(feature)` (interp.py lines 98-101), with the running index explicit.
Out-of-range text indexing is totalized with `""`; the pipeline assumes
`text_data` is aligned with the activation row. -/
def featureSamplesAux (text_data : List String) : Nat → List ℚ → List FeatureSample
  | _, [] => []
  | i, v :: vs => ⟨text_data.getD i "", v⟩ :: featureSamplesAux text_data (i + 1) vs

def featureSamples (text_data : List String) (row : List ℚ) : List FeatureSample :=
  featureSamplesAux text_data 0 row

/-- Descending order on activations: `a` may precede `b` when `b.act ≤ a.act`. -/
def actDesc (a b : FeatureSample) : Prop := b.act ≤ a.act

instance : DecidableRel actDesc := fun a b =>
  inferInstanceAs (Decidable (b.act ≤ a.act))

instance : IsTotal FeatureSample actDesc :=
  ⟨fun a b => le_total b.act a.act⟩

instance : IsTrans FeatureSample actDesc :=
  ⟨fun _ _ _ hab hbc => le_trans hbc hab⟩

/-- `feature_samples.sort(key=lambda x: x.act, reverse=True)` (interp.py line 102):
stable sort, descending by activation. -/
def sortedSamples (text_data : List String) (row : List ℚ) : List FeatureSample :=
  List.insertionSort actDesc (featureSamples text_data row)

/-- `[sample for sample in feature_samples[:50] if sample.act != 0]`
(interp.py lines 103-104, after the in-place sort). -/
def highActSamples (text_data : List String) (row : List ℚ) : List FeatureSample :=
  ((sortedSamples text_data row).take 50).filter (fun s => decide (s.act ≠ 0))

/-- `[sample for sample in feature_samples if sample.act == 0]` (interp.py line 105,
on the in-place-sorted list). -/
def zeroActSamples (text_data : List String) (row : List ℚ) : List FeatureSample :=
  (sortedSamples text_data row).filter (fun s => decide (s.act = 0))

/-- `np.random.choice(pop, k, replace=False)` (interp.py lines 105-106): draws `k`
elements at `k` distinct random positions of the population; raises a `ValueError`
when the population holds fewer than `k` elements.  The random draw is supplied as
the list of chosen positions; a draw that is not a valid without-replacement draw
(which the real RNG never produces) is also mapped to the error case, keeping the
function total. -/
def randomChoiceNoReplace (pop : List FeatureSample) (k : Nat) (draw : List Nat) :
    Except String (List FeatureSample) :=
  if k ≤ pop.length ∧ draw.length = k ∧ draw.Nodup ∧ ∀ i ∈ draw, i < pop.length then
    Except.ok (draw.map fun i => pop.getD i default)
  else
    Except.error "ValueError: cannot take a larger sample than population when replace is False"

/-- The low-evidence sampling step (interp.py lines 105-107). -/
def lowActSamples (text_data : List String) (row : List ℚ) (draw : List Nat) :
    Except String (List FeatureSample) :=
  randomChoiceNoReplace (zeroActSamples text_data row) 50 draw

/-- The body of the `try:` block (interp.py lines 108-119): the interpretation call
followed by the two scoring calls. -/
def interpPhase (ai : OpenAIClient) (high low : List FeatureSample) :
    Except String (Interpretation × ℚ × ℚ) := do
  let interp ← ai.get_interpretation high low
  let high_score ← ai.score_interpretation high interp.attributes
  let low_score ← ai.score_interpretation low interp.attributes
  pure (interp, high_score, low_score)

/-- Outcome of one iteration of the feature loop. -/
inductive StepResult where
  /-- An exception escapes the loop body (raised outside the `try:` block). -/
  | raised (e : String)
  /-- The `except Exception: ... continue` path: logged and skipped. -/
  | skip (e : String)
  /-- The iteration reaches `handle_labelled_feature` with this record. -/
  | feature (f : Feature)
deriving DecidableEq, Repr

/-- One iteration of the feature loop (interp.py lines 95-135).  The low-evidence
sampling happens before the `try:` block, so its `ValueError` is `raised`, while
exceptions of the interpretation and scoring calls are caught and become `skip`. -/
def processFeature (ai : OpenAIClient) (text_data : List String) (index : Nat)
    (feature : List ℚ) (draw : List Nat) : StepResult :=
  let high_act_samples := highActSamples text_data feature
  match lowActSamples text_data feature draw with
  | .error e => .raised e
  | .ok low_act_samples =>
    match interpPhase ai high_act_samples low_act_samples with
    | .error e => .skip e
    | .ok (interp, high_score, low_score) =>
      .feature
        { index := index
          label := interp.label
          attributes := interp.attributes
          reasoning := interp.reasoning
          confidence := ratAbs (high_score - low_score)
          density := density feature
          high_act_samples := high_act_samples
          low_act_samples := low_act_samples }

/-- Observable events of a run: the per-feature skip log
(`print("Skipping feature due to error: ...")`) and each invocation of
`handle_labelled_feature`.  The constructor `reportedSkipCount` is the
end-of-run aggregate report the spec asks for; it is part of the event
vocabulary only so that its absence from the source's behaviour can be stated —
no definition below ever produces it. -/
inductive Event where
  | skipped (msg : String)
  | emitted (f : Feature)
  | reportedSkipCount (n : Nat)
deriving DecidableEq, Repr

/-- The feature loop `for index, feature in enumerate(feature_registry)`
(interp.py lines 93-135).  Returns the event trace together with the exception
escaping the loop, if any; an escaping exception aborts the remaining features. -/
def runFeatures (ai : OpenAIClient) (text_data : List String) (draws : Nat → List Nat) :
    List (List ℚ) → Nat → List Event × Option String
  | [], _ => ([], none)
  | feature :: rest, index =>
    match processFeature ai text_data index feature (draws index) with
    | .raised e => ([], some e)
    | .skip e =>
      let r := runFeatures ai text_data draws rest (index + 1)
      (Event.skipped e :: r.1, r.2)
    | .feature f =>
      let r := runFeatures ai text_data draws rest (index + 1)
      (Event.emitted f :: r.1, r.2)

/-- `feature_registry[:, i] = feature_activations` (interp.py line 87): writes
column `i`.  The numpy assignment requires one activation entry per matrix row;
`zipWith` realizes that shape (the length side condition appears as a hypothesis
in the theorems). -/
def setColumn (m : List (List ℚ)) (i : Nat) (col : List ℚ) : List (List ℚ) :=
  List.zipWith (fun row v => row.set i v) m col

/-- `np.zeros((n_feature_activations, n))` followed by the column-filling loop
(interp.py lines 82-87); `encode e` models `sae.forward(torch.tensor(e))[1]`. -/
def buildRegistry (encode : List ℚ → List ℚ) (embeddings : List (List ℚ))
    (n_feature_activations : Nat) : List (List ℚ) :=
  (List.range embeddings.length).foldl
    (fun m i => setColumn m i (encode (embeddings.getD i [])))
    (List.replicate n_feature_activations (List.replicate embeddings.length 0))

/-- `feature_registry = feature_registry[:max_features, :]` when `max_features`
is given (interp.py lines 89-90). -/
def truncateRegistry (registry : List (List ℚ)) : Option Nat → List (List ℚ)
  | some k => registry.take k
  | none => registry

/-- `run_interp_pipeline` (interp.py lines 72-135).  The build of the registry is
a pure function of `encode` and `embeddings`, hence deterministic given a frozen
model and a fixed embedding order. -/
def run_interp_pipeline (ai : OpenAIClient) (encode : List ℚ → List ℚ)
    (embeddings : List (List ℚ)) (text_data : List String)
    (n_feature_activations : Nat) (draws : Nat → List Nat)
    (max_features : Option Nat) : List Event × Option String :=
  runFeatures ai text_data draws
    (truncateRegistry (buildRegistry encode embeddings n_feature_activations) max_features) 0

/-- The `Feature` records handed to `handle_labelled_feature`, in order. -/
def emittedFeatures (trace : List Event) : List Feature :=
  trace.filterMap fun ev =>
    match ev with
    | Event.emitted f => some f
    | _ => none

/-- How many per-feature skip messages were printed. -/
def skippedCount (trace : List Event) : Nat :=
  (trace.filter fun ev =>
    match ev with
    | Event.skipped _ => true
    | _ => false).length

/-- Whether the trace holds an end-of-run aggregate skipped-features report. -/
def hasSkipCountReport (trace : List Event) : Bool :=
  trace.any fun ev =>
    match ev with
    | Event.reportedSkipCount _ => true
    | _ => false

/-! ### Concrete instances used in closed evaluations -/

/-- A client whose calls all succeed, with a scoring call that answers `30` on an
empty sample set and `75` otherwise. -/
def okClient : OpenAIClient where
  get_interpretation := fun _ _ => .ok ⟨"label", "reasoning", ["attr"]⟩
  score_interpretation := fun samples _ => .ok (if samples.isEmpty then 30 else 75)

/-- A client whose interpretation call raises on every invocation. -/
def failClient : OpenAIClient where
  get_interpretation := fun _ _ => .error "boom"
  score_interpretation := fun _ _ => .ok 0

def wTexts : List String := List.replicate 50 "t"

/-- A dead feature row: 50 samples, all with activation `0`. -/
def wRow : List ℚ := List.replicate 50 0

/-- The random draw taking the first 50 positions. -/
def wDraw : List Nat := List.range 50

/-- The record `processFeature okClient wTexts 0 wRow wDraw` emits. -/
def wFeature : Feature where
  index := 0
  label := "label"
  attributes := ["attr"]
  reasoning := "reasoning"
  confidence := 45
  density := 0
  high_act_samples := []
  low_act_samples := List.replicate 50 ⟨"t", 0⟩

def wTexts2 : List String := List.replicate 51 "t"

/-- A row with one strictly positive activation followed by 50 zeros. -/
def wRow2 : List ℚ := 1 :: List.replicate 50 0

/-- A short all-non-zero row. -/
def wRowPos : List ℚ := [2, 1]

def texts10 : List String := List.replicate 10 "t"

/-- Ten identical one-dimensional embeddings. -/
def wEmbTen : List (List ℚ) := List.replicate 10 [1]

/-- A one-feature sparse model reading off the first embedding coordinate. -/
def encodeHead : List ℚ → List ℚ := fun e => [e.getD 0 0]

/-- A two-feature sparse model whose features never activate. -/
def encode2 : List ℚ → List ℚ := fun _ => [0, 0]

/-- Fifty identical one-dimensional embeddings. -/
def embs50 : List (List ℚ) := List.replicate 50 [0]

/-! ### General lemmas about the evidence-selection machinery -/

theorem map_act_featureSamplesAux (text_data : List String) :
    ∀ (i : Nat) (vs : List ℚ),
      (featureSamplesAux text_data i vs).map (fun s => s.act) = vs
  | _, [] => rfl
  | i, v :: vs => by
    simp [featureSamplesAux, map_act_featureSamplesAux text_data (i + 1) vs]

theorem map_act_featureSamples (text_data : List String) (row : List ℚ) :
    (featureSamples text_data row).map (fun s => s.act) = row :=
  map_act_featureSamplesAux text_data 0 row

theorem length_featureSamples (text_data : List String) (row : List ℚ) :
    (featureSamples text_data row).length = row.length := by
  have h := congrArg List.length (map_act_featureSamples text_data row)
  simpa using h

theorem sortedSamples_perm (text_data : List String) (row : List ℚ) :
    List.Perm (sortedSamples text_data row) (featureSamples text_data row) :=
  List.perm_insertionSort actDesc (featureSamples text_data row)

theorem sortedSamples_sorted (text_data : List String) (row : List ℚ) :
    (sortedSamples text_data row).Pairwise actDesc :=
  List.sorted_insertionSort actDesc (featureSamples text_data row)

theorem act_mem_row_of_mem_sortedSamples {text_data : List String} {row : List ℚ}
    {s : FeatureSample} (hs : s ∈ sortedSamples text_data row) : s.act ∈ row := by
  have h1 : s ∈ featureSamples text_data row :=
    (sortedSamples_perm text_data row).mem_iff.mp hs
  have h2 : s.act ∈ (featureSamples text_data row).map (fun s => s.act) :=
    List.mem_map_of_mem _ h1
  rwa [map_act_featureSamples] at h2

theorem countP_act_sortedSamples (text_data : List String) (row : List ℚ)
    (q : ℚ → Bool) :
    (sortedSamples text_data row).countP (fun s => q s.act) = row.countP q := by
  rw [(sortedSamples_perm text_data row).countP_eq]
  have h := List.countP_map q (fun s : FeatureSample => s.act)
      (l := featureSamples text_data row)
  rw [map_act_featureSamples] at h
  rw [h]
  rfl

theorem length_sortedSamples (text_data : List String) (row : List ℚ) :
    (sortedSamples text_data row).length = row.length := by
  rw [(sortedSamples_perm text_data row).length_eq, length_featureSamples]

/-- `filter` and `take` commute on a list made of a block of elements satisfying
the predicate followed by a block of elements that do not. -/
theorem filter_take_of_split {α : Type} (p : α → Bool) (l₁ l₂ : List α) (n : Nat)
    (h₁ : ∀ x ∈ l₁, p x = true) (h₂ : ∀ x ∈ l₂, p x = false) :
    ((l₁ ++ l₂).take n).filter p = ((l₁ ++ l₂).filter p).take n := by
  have e₁ : l₁.filter p = l₁ := List.filter_eq_self.mpr h₁
  have e₂ : l₂.filter p = [] :=
    List.filter_eq_nil_iff.mpr fun x hx => by simp [h₂ x hx]
  have e₃ : (l₁.take n).filter p = l₁.take n :=
    List.filter_eq_self.mpr fun x hx => h₁ x (List.mem_of_mem_take hx)
  have e₄ : (l₂.take (n - l₁.length)).filter p = [] :=
    List.filter_eq_nil_iff.mpr fun x hx => by simp [h₂ x (List.mem_of_mem_take hx)]
  rw [List.take_append_eq_append_take, List.filter_append, e₃, e₄,
    List.filter_append, e₁, e₂, List.append_nil, List.append_nil]

/-- The head of `dropWhile p l` does not satisfy `p`. -/
theorem not_of_dropWhile_eq_cons {α : Type} {p : α → Bool} :
    ∀ {l l' : List α} {a : α}, l.dropWhile p = a :: l' → p a = false
  | [], _, _, h => by simp [List.dropWhile] at h
  | x :: xs, l', a, h => by
    rw [List.dropWhile_cons] at h
    by_cases hx : p x = true
    · rw [if_pos hx] at h
      exact not_of_dropWhile_eq_cons h
    · rw [if_neg hx] at h
      cases h
      simpa using hx

/-- In the descending-sorted sample list of a non-negative activation row, every
sample after the leading non-zero block has activation exactly `0`. -/
theorem dropWhile_act_eq_zero (text_data : List String) (row : List ℚ)
    (hnn : ∀ x ∈ row, 0 ≤ x) :
    ∀ s ∈ (sortedSamples text_data row).dropWhile (fun s => decide (s.act ≠ 0)),
      s.act = 0 := by
  intro s hs
  set p : FeatureSample → Bool := fun s => decide (s.act ≠ 0) with hp
  cases hd : (sortedSamples text_data row).dropWhile p with
  | nil => rw [hd] at hs; cases hs
  | cons h t =>
    have hsub : List.Sublist ((sortedSamples text_data row).dropWhile p)
        (sortedSamples text_data row) := List.dropWhile_sublist p
    have hmem : ∀ x ∈ (sortedSamples text_data row).dropWhile p,
        x ∈ sortedSamples text_data row := fun x hx => hsub.subset hx
    have hhead0 : h.act = 0 := by
      have hf : p h = false := not_of_dropWhile_eq_cons hd
      rw [hp] at hf
      simpa using hf
    have hpw : ((sortedSamples text_data row).dropWhile p).Pairwise actDesc :=
      (sortedSamples_sorted text_data row).sublist hsub
    rw [hd] at hpw hs
    rcases List.mem_cons.mp hs with rfl | hst
    · exact hhead0
    · have hle : s.act ≤ h.act := (List.pairwise_cons.mp hpw).1 s hst
      have hge : 0 ≤ s.act := by
        have hms : s ∈ sortedSamples text_data row :=
          hmem s (by rw [hd]; exact List.mem_cons_of_mem _ hst)
        exact hnn s.act (act_mem_row_of_mem_sortedSamples hms)
      have hle0 : s.act ≤ 0 := hhead0 ▸ hle
      exact le_antisymm hle0 hge

/-- On a non-negative row, filtering the zero activations out of the first 50
sorted samples is the same as keeping the first 50 non-zero sorted samples. -/
theorem highActSamples_eq_take_filter (text_data : List String) (row : List ℚ)
    (hnn : ∀ x ∈ row, 0 ≤ x) :
    highActSamples text_data row
      = ((sortedSamples text_data row).filter (fun s => decide (s.act ≠ 0))).take 50 := by
  set l := sortedSamples text_data row with hl
  set p : FeatureSample → Bool := fun s => decide (s.act ≠ 0) with hp
  have h₁ : ∀ x ∈ l.takeWhile p, p x = true := fun x hx => List.mem_takeWhile_imp hx
  have h₂ : ∀ x ∈ l.dropWhile p, p x = false := by
    intro x hx
    have hz : x.act = 0 := dropWhile_act_eq_zero text_data row hnn x hx
    simp [hp, hz]
  have hsplit := List.takeWhile_append_dropWhile p (l := l)
  have key := filter_take_of_split p (l.takeWhile p) (l.dropWhile p) 50 h₁ h₂
  rw [hsplit] at key
  exact key

theorem countNonzero_eq_countP (row : List ℚ) :
    countNonzero row = row.countP (fun x => decide (x ≠ 0)) := by
  rw [countNonzero, List.countP_eq_length_filter]

theorem length_filter_nonzero_sortedSamples (text_data : List String) (row : List ℚ) :
    ((sortedSamples text_data row).filter (fun s => decide (s.act ≠ 0))).length
      = countNonzero row := by
  rw [← List.countP_eq_length_filter, countNonzero_eq_countP]
  exact countP_act_sortedSamples text_data row (fun x => decide (x ≠ 0))

/-- Inversion of a successful `processFeature` run: recovers every field of the
emitted record and the success of the sampling and service calls. -/
theorem processFeature_feature_inv {ai : OpenAIClient} {text_data : List String}
    {index : Nat} {row : List ℚ} {draw : List Nat} {F : Feature}
    (h : processFeature ai text_data index row draw = .feature F) :
    F.index = index
    ∧ F.high_act_samples = highActSamples text_data row
    ∧ lowActSamples text_data row draw = .ok F.low_act_samples
    ∧ F.density = density row
    ∧ ∃ interp high_score low_score,
        interpPhase ai (highActSamples text_data row) F.low_act_samples
          = .ok (interp, high_score, low_score)
        ∧ F.confidence = ratAbs (high_score - low_score)
        ∧ F.label = interp.label ∧ F.attributes = interp.attributes
        ∧ F.reasoning = interp.reasoning := by
  unfold processFeature at h
  cases hlow : lowActSamples text_data row draw with
  | error e => rw [hlow] at h; cases h
  | ok low =>
    rw [hlow] at h
    cases hph : interpPhase ai (highActSamples text_data row) low with
    | error e => simp only [hph] at h; cases h
    | ok t =>
      obtain ⟨interp, high_score, low_score⟩ := t
      simp only [hph] at h
      injection h with h
      subst h
      exact ⟨rfl, rfl, rfl, rfl, interp, high_score, low_score, hph, rfl, rfl, rfl, rfl⟩

/-- Inversion of a successful without-replacement draw. -/
theorem randomChoice_ok_inv {pop : List FeatureSample} {k : Nat} {draw : List Nat}
    {res : List FeatureSample}
    (h : randomChoiceNoReplace pop k draw = .ok res) :
    k ≤ pop.length ∧ draw.length = k ∧ draw.Nodup ∧ (∀ i ∈ draw, i < pop.length)
    ∧ res = draw.map fun i => pop.getD i default := by
  unfold randomChoiceNoReplace at h
  split at h
  · next hc =>
    injection h with h
    exact ⟨hc.1, hc.2.1, hc.2.2.1, hc.2.2.2, h.symm⟩
  · cases h

theorem mem_zeroActSamples_act {text_data : List String} {row : List ℚ}
    {s : FeatureSample} (hs : s ∈ zeroActSamples text_data row) : s.act = 0 := by
  have h := (List.mem_filter.mp hs).2
  simpa using h

/-- Elements of a valid draw land inside the population. -/
theorem getD_mem_of_lt {l : List FeatureSample} {i : Nat} (h : i < l.length) :
    l.getD i default ∈ l := by
  rw [List.getD_eq_getElem?_getD, List.getElem?_eq_getElem h]
  exact List.getElem_mem h

/-! ### Lemmas about the registry build -/

theorem getD_set_rat (l : List ℚ) (i j : Nat) (v : ℚ) :
    (l.set i v).getD j 0 = if i = j ∧ i < l.length then v else l.getD j 0 := by
  by_cases hlt : i < l.length
  · by_cases hij : i = j
    · subst hij
      rw [if_pos ⟨rfl, hlt⟩, List.getD_eq_getElem?_getD, List.getElem?_set_self hlt]
      rfl
    · rw [if_neg (fun hc => hij hc.1), List.getD_eq_getElem?_getD,
        List.getElem?_set_ne hij, List.getD_eq_getElem?_getD]
  · rw [if_neg (fun hc => hlt hc.2), List.set_eq_of_length_le (Nat.le_of_not_lt hlt)]

theorem length_setColumn (m : List (List ℚ)) (i : Nat) (col : List ℚ)
    (h : col.length = m.length) : (setColumn m i col).length = m.length := by
  simp [setColumn, h]

theorem setColumn_getD : ∀ (m : List (List ℚ)) (col : List ℚ) (i f : Nat),
    f < m.length → f < col.length →
    (setColumn m i col).getD f [] = (m.getD f []).set i (col.getD f 0)
  | [], _, _, _, h, _ => absurd h (by simp)
  | _ :: _, [], _, _, _, h => absurd h (by simp)
  | r :: m, v :: col, i, 0, _, _ => rfl
  | r :: m, v :: col, i, f + 1, hf, hc => by
    have hrec := setColumn_getD m col i f (by simpa using hf) (by simpa using hc)
    simpa [setColumn, List.zipWith] using hrec

theorem getD_replicate_zero (n i : Nat) : (List.replicate n (0 : ℚ)).getD i 0 = 0 := by
  rw [List.getD_eq_getElem?_getD]
  cases h : (List.replicate n (0 : ℚ))[i]? with
  | none => rfl
  | some x => simp [List.eq_of_mem_replicate (List.getElem?_mem h)]

/-- Invariant of the column-filling loop: after writing columns `0..k-1` into the
zero matrix, entry `(f, i)` holds the `f`-th coordinate of column `i` when
`i < k`, and `0` otherwise. -/
theorem foldl_setColumn_spec (c : Nat → List ℚ) (nf n : Nat)
    (hc : ∀ i, i < n → (c i).length = nf) :
    ∀ k : Nat, k ≤ n →
      ((List.range k).foldl (fun m i => setColumn m i (c i))
          (List.replicate nf (List.replicate n 0))).length = nf
      ∧ (∀ f, f < nf →
          (((List.range k).foldl (fun m i => setColumn m i (c i))
              (List.replicate nf (List.replicate n 0))).getD f []).length = n)
      ∧ ∀ f i, f < nf →
          (((List.range k).foldl (fun m i => setColumn m i (c i))
              (List.replicate nf (List.replicate n 0))).getD f []).getD i 0
            = if i < n ∧ i < k then (c i).getD f 0 else 0
  | 0, _ => by
    have hf0 : ∀ f, f < nf →
        (List.replicate nf (List.replicate n (0 : ℚ))).getD f []
          = List.replicate n (0 : ℚ) := by
      intro f hf
      have hf' : f < (List.replicate nf (List.replicate n (0 : ℚ))).length := by
        simpa using hf
      rw [List.getD_eq_getElem?_getD, List.getElem?_eq_getElem hf',
        List.getElem_replicate]
      rfl
    refine ⟨by simp, fun f hf => ?_, fun f i hf => ?_⟩
    · simp only [List.range_zero, List.foldl_nil, hf0 f hf]
      simp
    · simp only [List.range_zero, List.foldl_nil, hf0 f hf]
      rw [if_neg (fun hx => Nat.not_lt_zero i hx.2), getD_replicate_zero]
  | k + 1, hkn => by
    have hkn' : k ≤ n := Nat.le_of_succ_le hkn
    have hck : (c k).length = nf := hc k (Nat.lt_of_succ_le hkn)
    obtain ⟨ihlen, ihrow, ihent⟩ := foldl_setColumn_spec c nf n hc k hkn'
    have hstep : (List.range (k + 1)).foldl (fun m i => setColumn m i (c i))
          (List.replicate nf (List.replicate n 0))
        = setColumn ((List.range k).foldl (fun m i => setColumn m i (c i))
            (List.replicate nf (List.replicate n 0))) k (c k) := by
      rw [List.range_succ, List.foldl_append, List.foldl_cons, List.foldl_nil]
    set m := (List.range k).foldl (fun m i => setColumn m i (c i))
        (List.replicate nf (List.replicate n 0)) with hm
    have hclen : (c k).length = m.length := by rw [hck, ihlen]
    refine ⟨?_, ?_, ?_⟩
    · rw [hstep, length_setColumn m k (c k) hclen, ihlen]
    · intro f hf
      rw [hstep, setColumn_getD m (c k) k f (by rw [ihlen]; exact hf)
        (by rw [hck]; exact hf)]
      rw [List.length_set]
      exact ihrow f hf
    · intro f i hf
      rw [hstep, setColumn_getD m (c k) k f (by rw [ihlen]; exact hf)
        (by rw [hck]; exact hf)]
      rw [getD_set_rat, ihrow f hf, ihent f i hf]
      by_cases hik : k = i
      · subst hik
        by_cases hknn : k < n
        · rw [if_pos ⟨rfl, hknn⟩, if_pos ⟨hknn, Nat.lt_succ_self k⟩]
        · rw [if_neg (fun hx => hknn hx.2), if_neg (fun hx => hknn hx.1),
            if_neg (fun hx => hknn hx.1)]
      · rw [if_neg (fun hx => hik hx.1)]
        by_cases hin : i < n
        · by_cases hikk : i < k
          · rw [if_pos ⟨hin, hikk⟩, if_pos ⟨hin, Nat.lt_succ_of_lt hikk⟩]
          · have hik2 : ¬ i < k + 1 := by omega
            rw [if_neg (fun hx => hikk hx.2), if_neg (fun hx => hik2 hx.2)]
        · rw [if_neg (fun hx => hin hx.1), if_neg (fun hx => hin hx.1)]

/-- C3: for every feature index `f < n_feature_activations` and sample index
`i < len(embeddings)`, the registry built by `run_interp_pipeline` satisfies
`registry[f][i] = encode(embeddings[i])[f]` — the `f`-th coordinate of the sparse
code on the `i`-th embedding.  Determinism given a frozen model and a fixed
embedding order is immediate: `buildRegistry` is a pure function of `encode` and
`embeddings`. -/
theorem buildRegistry_getD (encode : List ℚ → List ℚ) (embeddings : List (List ℚ))
    (nf : Nat) (hlen : ∀ e ∈ embeddings, (encode e).length = nf)
    (f i : Nat) (hf : f < nf) (hi : i < embeddings.length) :
    ((buildRegistry encode embeddings nf).getD f []).getD i 0
      = (encode (embeddings.getD i [])).getD f 0 := by
  have hc : ∀ j, j < embeddings.length →
      (encode (embeddings.getD j [])).length = nf := by
    intro j hj
    refine hlen _ ?_
    rw [List.getD_eq_getElem?_getD, List.getElem?_eq_getElem hj]
    exact List.getElem_mem hj
  have hspec := (foldl_setColumn_spec (fun j => encode (embeddings.getD j []))
      nf embeddings.length hc embeddings.length (Nat.le_refl _)).2.2 f i hf
  rw [buildRegistry, hspec, if_pos ⟨hi, hi⟩]

/-- Witness for C3 at the ten-embedding one-feature model. -/
theorem buildRegistry_getD_witness :
    ((buildRegistry encodeHead wEmbTen 1).getD 0 []).getD 0 0
      = (encodeHead (wEmbTen.getD 0 [])).getD 0 0 :=
  buildRegistry_getD encodeHead wEmbTen 1 (by decide) 0 0 (by decide) (by decide)

/-! ### Lemmas about the feature loop -/

theorem runFeatures_nil (ai : OpenAIClient) (text_data : List String)
    (draws : Nat → List Nat) (idx : Nat) :
    runFeatures ai text_data draws [] idx = ([], none) := rfl

theorem runFeatures_cons_raised {ai : OpenAIClient} {text_data : List String}
    {draws : Nat → List Nat} {row : List ℚ} {rest : List (List ℚ)} {idx : Nat}
    {e : String} (hp : processFeature ai text_data idx row (draws idx) = .raised e) :
    runFeatures ai text_data draws (row :: rest) idx = ([], some e) := by
  simp only [runFeatures, hp]

theorem runFeatures_cons_skip {ai : OpenAIClient} {text_data : List String}
    {draws : Nat → List Nat} {row : List ℚ} {rest : List (List ℚ)} {idx : Nat}
    {e : String} (hp : processFeature ai text_data idx row (draws idx) = .skip e) :
    runFeatures ai text_data draws (row :: rest) idx
      = (Event.skipped e :: (runFeatures ai text_data draws rest (idx + 1)).1,
         (runFeatures ai text_data draws rest (idx + 1)).2) := by
  simp only [runFeatures, hp]

theorem runFeatures_cons_feature {ai : OpenAIClient} {text_data : List String}
    {draws : Nat → List Nat} {row : List ℚ} {rest : List (List ℚ)} {idx : Nat}
    {f : Feature} (hp : processFeature ai text_data idx row (draws idx) = .feature f) :
    runFeatures ai text_data draws (row :: rest) idx
      = (Event.emitted f :: (runFeatures ai text_data draws rest (idx + 1)).1,
         (runFeatures ai text_data draws rest (idx + 1)).2) := by
  simp only [runFeatures, hp]

theorem emittedFeatures_nil : emittedFeatures [] = [] := rfl

theorem emittedFeatures_cons_skipped (e : String) (t : List Event) :
    emittedFeatures (Event.skipped e :: t) = emittedFeatures t := rfl

theorem emittedFeatures_cons_emitted (f : Feature) (t : List Event) :
    emittedFeatures (Event.emitted f :: t) = f :: emittedFeatures t := rfl

theorem skippedCount_cons_skipped (e : String) (t : List Event) :
    skippedCount (Event.skipped e :: t) = skippedCount t + 1 := by
  simp [skippedCount]

theorem hasSkipCountReport_cons_skipped (e : String) (t : List Event) :
    hasSkipCountReport (Event.skipped e :: t) = hasSkipCountReport t := by
  simp [hasSkipCountReport]

/-- Every record handed to the handler carries the loop index of its feature row:
at least the starting index and below start + number of rows. -/
theorem emitted_index_range {ai : OpenAIClient} {text_data : List String}
    {draws : Nat → List Nat} :
    ∀ (rows : List (List ℚ)) (idx : Nat) (F : Feature),
      F ∈ emittedFeatures (runFeatures ai text_data draws rows idx).1 →
      idx ≤ F.index ∧ F.index < idx + rows.length
  | [], idx, F => by
    intro hF
    rw [runFeatures_nil] at hF
    cases hF
  | row :: rest, idx, F => by
    intro hF
    cases hp : processFeature ai text_data idx row (draws idx) with
    | raised e =>
      rw [runFeatures_cons_raised hp] at hF
      cases hF
    | skip e =>
      rw [runFeatures_cons_skip hp] at hF
      rw [emittedFeatures_cons_skipped] at hF
      have ih := emitted_index_range rest (idx + 1) F hF
      refine ⟨by omega, by simpa [Nat.add_comm, Nat.add_left_comm] using ih.2⟩
    | feature f =>
      rw [runFeatures_cons_feature hp] at hF
      rw [emittedFeatures_cons_emitted] at hF
      rcases List.mem_cons.mp hF with rfl | hFt
      · have hidx : F.index = idx := (processFeature_feature_inv hp).1
        simp [hidx]
      · have ih := emitted_index_range rest (idx + 1) F hFt
        refine ⟨by omega, by simpa [Nat.add_comm, Nat.add_left_comm] using ih.2⟩

/-- When the interpretation service raises on every call and the low-evidence
sampling succeeds for every row, the loop completes with one skip log per row,
no emitted record, and no aggregate report. -/
theorem runFeatures_all_fail {ai : OpenAIClient} {text_data : List String}
    {draws : Nat → List Nat}
    (hfail : ∀ high low, ∃ e, ai.get_interpretation high low = .error e) :
    ∀ (rows : List (List ℚ)) (idx : Nat),
      (∀ j, j < rows.length →
        ∃ low, lowActSamples text_data (rows.getD j []) (draws (idx + j)) = .ok low) →
      (runFeatures ai text_data draws rows idx).2 = none
      ∧ emittedFeatures (runFeatures ai text_data draws rows idx).1 = []
      ∧ skippedCount (runFeatures ai text_data draws rows idx).1 = rows.length
      ∧ hasSkipCountReport (runFeatures ai text_data draws rows idx).1 = false
  | [], idx, _ => by
    rw [runFeatures_nil]
    exact ⟨rfl, rfl, rfl, rfl⟩
  | row :: rest, idx, hlow => by
    obtain ⟨low, hlow0⟩ := by
      have h := hlow 0 (by simp)
      simpa using h
    obtain ⟨e, he⟩ := hfail (highActSamples text_data row) low
    have hph : interpPhase ai (highActSamples text_data row) low = .error e := by
      unfold interpPhase
      rw [he]
      rfl
    have hp : processFeature ai text_data idx row (draws idx) = .skip e := by
      unfold processFeature
      simp only [hlow0, hph]
    have hrest : ∀ j, j < rest.length →
        ∃ low2, lowActSamples text_data (rest.getD j []) (draws (idx + 1 + j)) = .ok low2 := by
      intro j hj
      have h := hlow (j + 1) (by simpa using Nat.succ_lt_succ hj)
      have harith : idx + (j + 1) = idx + 1 + j := by omega
      rw [harith] at h
      simpa using h
    have ih := runFeatures_all_fail hfail rest (idx + 1) hrest
    rw [runFeatures_cons_skip hp, emittedFeatures_cons_skipped,
      skippedCount_cons_skipped, hasSkipCountReport_cons_skipped]
    exact ⟨ih.1, ih.2.1, by rw [ih.2.2.1]; simp, ih.2.2.2⟩

/-! ### Lemmas about density -/

theorem density_of_all_zero {row : List ℚ} (h : ∀ x ∈ row, x = 0) :
    density row = 0 := by
  have hcz : countNonzero row = 0 := by
    rw [countNonzero]
    have : row.filter (fun x => decide (x ≠ 0)) = [] :=
      List.filter_eq_nil_iff.mpr fun x hx => by simp [h x hx]
    rw [this]
    rfl
  rw [density, hcz]
  simp

theorem density_of_all_nonzero {row : List ℚ} (hne : row ≠ [])
    (h : ∀ x ∈ row, x ≠ 0) : density row = 1 := by
  have hcz : countNonzero row = row.length := by
    rw [countNonzero]
    have : row.filter (fun x => decide (x ≠ 0)) = row :=
      List.filter_eq_self.mpr fun x hx => by simpa using h x hx
    rw [this]
  rw [density, hcz]
  have hlen : (row.length : ℚ) ≠ 0 := by
    have : row.length ≠ 0 := by
      intro hc
      exact hne (List.eq_nil_of_length_eq_zero hc)
    exact_mod_cast this
  exact div_self hlen

/-! ### Reduction helpers for the Except monad -/

theorem ratAbs_eq_abs (q : ℚ) : ratAbs q = |q| := by
  unfold ratAbs
  by_cases h : q < 0
  · rw [if_pos h, abs_of_neg h]
  · rw [if_neg h, abs_of_nonneg (le_of_not_lt h)]

theorem except_bind_ok {ε α β : Type} (a : α) (f : α → Except ε β) :
    (Except.ok a : Except ε α) >>= f = f a := rfl

theorem except_bind_error {ε α β : Type} (e : ε) (f : α → Except ε β) :
    (Except.error e : Except ε α) >>= f = Except.error e := rfl

theorem except_pure {ε α : Type} (a : α) :
    (pure a : Except ε α) = Except.ok a := rfl

theorem interpPhase_ok {ai : OpenAIClient} {high low : List FeatureSample}
    {interp : Interpretation} {high_score low_score : ℚ}
    (hint : ai.get_interpretation high low = .ok interp)
    (hhs : ai.score_interpretation high interp.attributes = .ok high_score)
    (hls : ai.score_interpretation low interp.attributes = .ok low_score) :
    interpPhase ai high low = .ok (interp, high_score, low_score) := by
  unfold interpPhase
  simp only [hint, except_bind_ok, hhs, hls, except_pure]

/-! ### The claims -/

/-- C6: for a feature row with all activations non-negative, the high-evidence
set has `min 50 (number of non-zero entries)` samples, all of strictly non-zero
activation, and is exactly the first 50 non-zero samples of the
descending-by-activation sort. -/
theorem high_evidence_spec (text_data : List String) (row : List ℚ)
    (hnn : ∀ x ∈ row, 0 ≤ x) :
    (highActSamples text_data row).length = min 50 (countNonzero row)
    ∧ (∀ s ∈ highActSamples text_data row, s.act ≠ 0)
    ∧ highActSamples text_data row
        = ((sortedSamples text_data row).filter (fun s => decide (s.act ≠ 0))).take 50 := by
  have hchar := highActSamples_eq_take_filter text_data row hnn
  refine ⟨?_, ?_, hchar⟩
  · rw [hchar, List.length_take, length_filter_nonzero_sortedSamples]
  · intro s hs
    have h := (List.mem_filter.mp hs).2
    simpa using h

/-- Witness for C6 at the row `[1, 0, …, 0]` (51 entries). -/
theorem high_evidence_spec_witness :
    (highActSamples wTexts2 wRow2).length = min 50 (countNonzero wRow2) :=
  (high_evidence_spec wTexts2 wRow2 (by decide)).1

/-- C5: every emitted `Feature` has
`density = count_nonzero(row) / len(row)` over the full activation row; the
formula yields exactly `0` on an all-zero row and exactly `1` on a non-empty
all-non-zero row. -/
theorem feature_density_spec (ai : OpenAIClient) (text_data : List String)
    (index : Nat) (row : List ℚ) (draw : List Nat) (F : Feature) :
    (processFeature ai text_data index row draw = .feature F →
      F.density = (countNonzero row : ℚ) / (row.length : ℚ))
    ∧ ((∀ x ∈ row, x = 0) → density row = 0)
    ∧ (row ≠ [] → (∀ x ∈ row, x ≠ 0) → density row = 1) := by
  refine ⟨fun h => ?_, density_of_all_zero, density_of_all_nonzero⟩
  have hd := (processFeature_feature_inv h).2.2.2.1
  rw [hd, density]

/-- The concrete record produced on the all-zero 50-sample row. -/
theorem processFeature_wRow :
    processFeature okClient wTexts 0 wRow wDraw = .feature wFeature := by
  with_unfolding_all decide

/-- Witness for C5: the emitted density on the all-zero row, the all-zero
endpoint, and the all-non-zero endpoint, at concrete rows. -/
theorem feature_density_spec_witness :
    wFeature.density = (countNonzero wRow : ℚ) / (wRow.length : ℚ)
    ∧ density wRow = 0 ∧ density wRowPos = 1 :=
  ⟨(feature_density_spec okClient wTexts 0 wRow wDraw wFeature).1 processFeature_wRow,
   (feature_density_spec okClient wTexts 0 wRow wDraw wFeature).2.1 (by decide),
   (feature_density_spec okClient wTexts 0 wRowPos wDraw wFeature).2.2 (by decide)
     (by decide)⟩

/-- C4: when the interpretation call and both scoring calls succeed, the feature
is emitted with `confidence = |high_score - low_score|`; equal scores give
confidence exactly `0`. -/
theorem feature_confidence_spec (ai : OpenAIClient) (text_data : List String)
    (index : Nat) (row : List ℚ) (draw : List Nat) (low : List FeatureSample)
    (interp : Interpretation) (high_score low_score : ℚ)
    (hlow : lowActSamples text_data row draw = .ok low)
    (hint : ai.get_interpretation (highActSamples text_data row) low = .ok interp)
    (hhs : ai.score_interpretation (highActSamples text_data row) interp.attributes
        = .ok high_score)
    (hls : ai.score_interpretation low interp.attributes = .ok low_score) :
    ∃ F, processFeature ai text_data index row draw = .feature F
      ∧ F.confidence = |high_score - low_score|
      ∧ (high_score = low_score → F.confidence = 0) := by
  have hph := interpPhase_ok hint hhs hls
  refine ⟨{ index := index, label := interp.label, attributes := interp.attributes,
            reasoning := interp.reasoning,
            confidence := ratAbs (high_score - low_score),
            density := density row,
            high_act_samples := highActSamples text_data row,
            low_act_samples := low }, ?_, ratAbs_eq_abs _, fun he => ?_⟩
  · unfold processFeature
    simp only [hlow, hph]
  · simp [he, ratAbs]

/-- Witness for C4 on the all-zero row with scores `30` and `75`. -/
theorem feature_confidence_spec_witness :
    ∃ F, processFeature okClient wTexts 0 wRow wDraw = .feature F
      ∧ F.confidence = |(30 : ℚ) - 75|
      ∧ ((30 : ℚ) = 75 → F.confidence = 0) :=
  feature_confidence_spec okClient wTexts 0 wRow wDraw
    (List.replicate 50 ⟨"t", 0⟩) ⟨"label", "reasoning", ["attr"]⟩ 30 75
    rfl rfl rfl rfl

/-- C7: every feature that reaches emission took its low-evidence set as 50
draws at distinct positions (without replacement) of the exactly-zero-activation
subset; each of its entries has activation `0`. -/
theorem low_evidence_spec {ai : OpenAIClient} {text_data : List String}
    {index : Nat} {row : List ℚ} {draw : List Nat} {F : Feature}
    (h : processFeature ai text_data index row draw = .feature F) :
    F.low_act_samples
        = draw.map (fun i => (zeroActSamples text_data row).getD i default)
    ∧ draw.Nodup ∧ draw.length = 50
    ∧ F.low_act_samples.length = 50
    ∧ ∀ s ∈ F.low_act_samples, s ∈ zeroActSamples text_data row ∧ s.act = 0 := by
  have hlow := (processFeature_feature_inv h).2.2.1
  unfold lowActSamples at hlow
  obtain ⟨hk, hdlen, hnodup, hbound, hres⟩ := randomChoice_ok_inv hlow
  refine ⟨hres, hnodup, hdlen, ?_, ?_⟩
  · rw [hres, List.length_map, hdlen]
  · intro s hs
    rw [hres] at hs
    obtain ⟨i, hi, rfl⟩ := List.mem_map.mp hs
    have hmem := getD_mem_of_lt (hbound i hi)
    exact ⟨hmem, mem_zeroActSamples_act hmem⟩

/-- Witness for C7 at the concrete emission on the all-zero row. -/
theorem low_evidence_spec_witness :
    wFeature.low_act_samples.length = 50
    ∧ ∀ s ∈ wFeature.low_act_samples, s.act = 0 := by
  have h := low_evidence_spec processFeature_wRow
  exact ⟨h.2.2.2.1, fun s hs => (h.2.2.2.2 s hs).2⟩

/-- C2: if the interpretation call or either of the two scoring calls raises,
`processFeature` yields `.skip` — so the handler is never invoked for that
feature, no partially computed record is emitted — and the loop continues with
the next feature. -/
theorem service_exception_skips_feature (ai : OpenAIClient) (text_data : List String)
    (draws : Nat → List Nat) (index : Nat) (row : List ℚ) (rest : List (List ℚ))
    (low : List FeatureSample) (e : String)
    (hlow : lowActSamples text_data row (draws index) = .ok low)
    (hfail : ai.get_interpretation (highActSamples text_data row) low = .error e
      ∨ (∃ interp, ai.get_interpretation (highActSamples text_data row) low = .ok interp
          ∧ ai.score_interpretation (highActSamples text_data row) interp.attributes
              = .error e)
      ∨ (∃ interp high_score,
          ai.get_interpretation (highActSamples text_data row) low = .ok interp
          ∧ ai.score_interpretation (highActSamples text_data row) interp.attributes
              = .ok high_score
          ∧ ai.score_interpretation low interp.attributes = .error e)) :
    processFeature ai text_data index row (draws index) = .skip e
    ∧ runFeatures ai text_data draws (row :: rest) index
        = (Event.skipped e :: (runFeatures ai text_data draws rest (index + 1)).1,
           (runFeatures ai text_data draws rest (index + 1)).2) := by
  have hph : interpPhase ai (highActSamples text_data row) low = .error e := by
    unfold interpPhase
    rcases hfail with hint | ⟨interp, hint, hsc⟩ | ⟨interp, high_score, hint, hsc1, hsc2⟩
    · simp only [hint, except_bind_error]
    · simp only [hint, except_bind_ok, hsc, except_bind_error]
    · simp only [hint, except_bind_ok, hsc1, hsc2, except_bind_error]
  have hp : processFeature ai text_data index row (draws index) = .skip e := by
    unfold processFeature
    simp only [hlow, hph]
  exact ⟨hp, runFeatures_cons_skip hp⟩

/-- Witness for C2: a client whose interpretation call raises makes the all-zero
feature be skipped with the loop intact. -/
theorem service_exception_skips_feature_witness :
    processFeature failClient wTexts 0 wRow wDraw = .skip "boom"
    ∧ runFeatures failClient wTexts (fun _ => wDraw) [wRow] 0
        = ([Event.skipped "boom"], none) :=
  have h := service_exception_skips_feature failClient wTexts (fun _ => wDraw) 0 wRow []
    (List.replicate 50 ⟨"t", 0⟩) "boom" rfl (Or.inl rfl)
  ⟨h.1, h.2⟩

/-- C8: with `max_features = some k`, the pipeline processes exactly the
`k`-prefix of the registry, selected by feature index (row `j < k` is the
original row `j`; when the registry has at least `k` rows the prefix has exactly
`k` of them), and every emitted record's index is below `k`. -/
theorem max_features_truncates_by_index (ai : OpenAIClient) (encode : List ℚ → List ℚ)
    (embeddings : List (List ℚ)) (text_data : List String) (nf : Nat)
    (draws : Nat → List Nat) (k : Nat) :
    truncateRegistry (buildRegistry encode embeddings nf) (some k)
        = (buildRegistry encode embeddings nf).take k
    ∧ (∀ j, j < k →
        (truncateRegistry (buildRegistry encode embeddings nf) (some k)).getD j []
          = (buildRegistry encode embeddings nf).getD j [])
    ∧ (k ≤ (buildRegistry encode embeddings nf).length →
        (truncateRegistry (buildRegistry encode embeddings nf) (some k)).length = k)
    ∧ ∀ F ∈ emittedFeatures
        (run_interp_pipeline ai encode embeddings text_data nf draws (some k)).1,
        F.index < k := by
  refine ⟨rfl, ?_, ?_, ?_⟩
  · intro j hj
    show ((buildRegistry encode embeddings nf).take k).getD j [] = _
    rw [List.getD_eq_getElem?_getD, List.getD_eq_getElem?_getD,
      List.getElem?_take_of_lt hj]
  · intro hk
    show ((buildRegistry encode embeddings nf).take k).length = k
    rw [List.length_take]
    omega
  · intro F hF
    have h := emitted_index_range
      (truncateRegistry (buildRegistry encode embeddings nf) (some k)) 0 F hF
    have hlen : (truncateRegistry (buildRegistry encode embeddings nf) (some k)).length
        ≤ k := by
      show ((buildRegistry encode embeddings nf).take k).length ≤ k
      rw [List.length_take]
      omega
    omega

/-- Witness for C8 at a one-feature registry truncated to its first row. -/
theorem max_features_truncates_by_index_witness :
    (truncateRegistry (buildRegistry encodeHead wEmbTen 1) (some 1)).length = 1
    ∧ (truncateRegistry (buildRegistry encodeHead wEmbTen 1) (some 1)).getD 0 []
        = (buildRegistry encodeHead wEmbTen 1).getD 0 [] :=
  have h := max_features_truncates_by_index okClient encodeHead wEmbTen texts10 1
    (fun _ => wDraw) 1
  ⟨h.2.2.1 (by with_unfolding_all decide), h.2.1 0 (by decide)⟩

/-- C1: the spec requires a feature with fewer than 50 exactly-zero activation
entries to be skipped with the run continuing, but `np.random.choice` is invoked
outside the `try:` block (interp.py lines 105-107): on a 10-sample row with no
zero entry the `ValueError` escapes `run_interp_pipeline`, the feature is not
logged as skipped, and no later feature would be processed. -/
theorem evidence_shortage_error_escapes :
    (run_interp_pipeline okClient encodeHead wEmbTen texts10 1 (fun _ => wDraw) none).2
      = some "ValueError: cannot take a larger sample than population when replace is False"
    ∧ (run_interp_pipeline okClient encodeHead wEmbTen texts10 1
        (fun _ => wDraw) none).1 = [] := by
  with_unfolding_all decide

/-- C10: a dead feature (all-zero row over at least 50 samples) is not skipped
for lack of high evidence: the high-evidence set is empty, and when the service
calls succeed a record with empty `high_act_samples` and density `0` is
emitted. -/
theorem dead_feature_still_processed (ai : OpenAIClient) (text_data : List String)
    (index : Nat) (row : List ℚ) (draw : List Nat)
    (interp : Interpretation) (high_score low_score : ℚ)
    (hzero : ∀ x ∈ row, x = 0) (hlen : 50 ≤ row.length)
    (hnodup : draw.Nodup) (hdlen : draw.length = 50)
    (hbound : ∀ i ∈ draw, i < row.length)
    (hint : ai.get_interpretation []
        (draw.map fun i => (zeroActSamples text_data row).getD i default) = .ok interp)
    (hhs : ai.score_interpretation [] interp.attributes = .ok high_score)
    (hls : ai.score_interpretation
        (draw.map fun i => (zeroActSamples text_data row).getD i default)
        interp.attributes = .ok low_score) :
    highActSamples text_data row = []
    ∧ ∃ F, processFeature ai text_data index row draw = .feature F
        ∧ F.high_act_samples = [] ∧ F.density = 0 := by
  have hhigh : highActSamples text_data row = [] := by
    unfold highActSamples
    refine List.filter_eq_nil_iff.mpr fun s hs => ?_
    have hmem : s ∈ sortedSamples text_data row := List.mem_of_mem_take hs
    have h0 : s.act = 0 := hzero s.act (act_mem_row_of_mem_sortedSamples hmem)
    simp [h0]
  have hzlen : (zeroActSamples text_data row).length = row.length := by
    unfold zeroActSamples
    rw [← List.countP_eq_length_filter]
    rw [countP_act_sortedSamples text_data row (fun x => decide (x = 0))]
    rw [List.countP_eq_length_filter]
    rw [List.filter_eq_self.mpr fun x hx => by simp [hzero x hx]]
  have hbound2 : ∀ i ∈ draw, i < (zeroActSamples text_data row).length := by
    intro i hi
    rw [hzlen]
    exact hbound i hi
  have hlowok : lowActSamples text_data row draw
      = .ok (draw.map fun i => (zeroActSamples text_data row).getD i default) := by
    unfold lowActSamples randomChoiceNoReplace
    rw [if_pos ⟨by rw [hzlen]; exact hlen, hdlen, hnodup, hbound2⟩]
  have hint2 : ai.get_interpretation (highActSamples text_data row)
      (draw.map fun i => (zeroActSamples text_data row).getD i default) = .ok interp := by
    rw [hhigh]
    exact hint
  have hhs2 : ai.score_interpretation (highActSamples text_data row) interp.attributes
      = .ok high_score := by
    rw [hhigh]
    exact hhs
  have hph := interpPhase_ok hint2 hhs2 hls
  refine ⟨hhigh, ⟨{ index := index, label := interp.label,
                    attributes := interp.attributes, reasoning := interp.reasoning,
                    confidence := ratAbs (high_score - low_score),
                    density := density row,
                    high_act_samples := highActSamples text_data row,
                    low_act_samples := draw.map fun i =>
                      (zeroActSamples text_data row).getD i default },
                  ?_, hhigh, ?_⟩⟩
  · unfold processFeature
    simp only [hlowok, hph]
  · exact density_of_all_zero hzero

/-- Witness for C10 at the all-zero 50-sample row. -/
theorem dead_feature_still_processed_witness :
    highActSamples wTexts wRow = []
    ∧ ∃ F, processFeature okClient wTexts 0 wRow wDraw = .feature F
        ∧ F.high_act_samples = [] ∧ F.density = 0 :=
  dead_feature_still_processed okClient wTexts 0 wRow wDraw
    ⟨"label", "reasoning", ["attr"]⟩ 30 75
    (by decide) (by decide) (by decide) (by decide) (by decide) rfl rfl rfl

/-- C9 (amended): when every interpretation call raises and every processed row
admits the low-evidence draw, the pipeline completes (no escaping exception),
emits zero records, and prints one per-feature skip log per processed feature —
but no aggregate skipped-feature count is reported at the end. -/
theorem interp_failures_never_abort (ai : OpenAIClient) (encode : List ℚ → List ℚ)
    (embeddings : List (List ℚ)) (text_data : List String) (nf : Nat)
    (draws : Nat → List Nat) (mf : Option Nat)
    (hfail : ∀ high low, ∃ e, ai.get_interpretation high low = .error e)
    (hlow : ∀ j, j < (truncateRegistry (buildRegistry encode embeddings nf) mf).length →
        ∃ low, lowActSamples text_data
            ((truncateRegistry (buildRegistry encode embeddings nf) mf).getD j [])
            (draws j) = .ok low) :
    (run_interp_pipeline ai encode embeddings text_data nf draws mf).2 = none
    ∧ emittedFeatures (run_interp_pipeline ai encode embeddings text_data nf draws mf).1
        = []
    ∧ skippedCount (run_interp_pipeline ai encode embeddings text_data nf draws mf).1
        = (truncateRegistry (buildRegistry encode embeddings nf) mf).length
    ∧ hasSkipCountReport
        (run_interp_pipeline ai encode embeddings text_data nf draws mf).1 = false := by
  have h := runFeatures_all_fail hfail
    (truncateRegistry (buildRegistry encode embeddings nf) mf) 0
    (by intro j hj; have hx := hlow j hj; simpa using hx)
  exact h

/-- Witness for C9's amended statement at the two-dead-feature run. -/
theorem interp_failures_never_abort_witness :
    (run_interp_pipeline failClient encode2 embs50 wTexts 2 (fun _ => wDraw) none).2
      = none
    ∧ emittedFeatures
        (run_interp_pipeline failClient encode2 embs50 wTexts 2
          (fun _ => wDraw) none).1 = [] := by
  have h := interp_failures_never_abort failClient encode2 embs50 wTexts 2
    (fun _ => wDraw) none (fun high low => ⟨"boom", rfl⟩) ?_
  · exact ⟨h.1, h.2.1⟩
  · intro j hj
    have hj2 : j < 2 := by
      have : (truncateRegistry (buildRegistry encode2 embs50 2) none).length = 2 := by
        with_unfolding_all decide
      omega
    interval_cases j
    · exact ⟨List.replicate 50 ⟨"t", 0⟩, by with_unfolding_all decide⟩
    · exact ⟨List.replicate 50 ⟨"t", 0⟩, by with_unfolding_all decide⟩

/-- C9 counterexample: in the run with a service raising on every call, the
scenario completes with zero emitted records and one skip log per feature, but
the trace holds no aggregate skipped-count report — the source never prints
one. -/
theorem no_skip_count_report_counterexample :
    hasSkipCountReport
        (run_interp_pipeline failClient encode2 embs50 wTexts 2
          (fun _ => wDraw) none).1 = false
    ∧ skippedCount
        (run_interp_pipeline failClient encode2 embs50 wTexts 2
          (fun _ => wDraw) none).1 = 2
    ∧ emittedFeatures
        (run_interp_pipeline failClient encode2 embs50 wTexts 2
          (fun _ => wDraw) none).1 = []
    ∧ (run_interp_pipeline failClient encode2 embs50 wTexts 2
        (fun _ => wDraw) none).2 = none := by
  with_unfolding_all decide

end InterpPipeline
